import Mathlib

/-!
Verification of the timing-and-billing core of the Phone Support Timer
(`call_timer.py`): the billing functions, the call-timer state machine,
and the monthly CSV ledger, shallowly embedded in Lean. Python floats
(monotonic timestamps, currency amounts) are modelled as rationals;
fallible file writes are modelled with an explicit success flag.
-/

namespace CallTimer

/-- Billing settings loaded from the config file (`_load_config`):
`rate_per_hour` is a float in the source, `minimum_minutes` an int,
accepted without validation. -/
structure Settings where
  rate_per_hour : ℚ
  minimum_minutes : ℤ
deriving DecidableEq

/-- Embeds `self.minimum_secs = int(self.minimum_minutes * 60)`
(`__init__`, line 115; `int` of an int is the identity). -/
def minimum_secs (c : Settings) : ℤ := c.minimum_minutes * 60

/-- Embeds `_raw_cost` (lines 299-300):
`(self.rate_per_hour / 3600.0) * secs`. -/
def raw_cost (c : Settings) (secs : ℚ) : ℚ := c.rate_per_hour / 3600 * secs

/-- Embeds `_effective_cost` (lines 302-306): at or below the minimum the
call is free, above it the full duration is charged. -/
def effective_cost (c : Settings) (secs : ℚ) : ℚ :=
  if secs ≤ (minimum_secs c : ℚ) then 0 else raw_cost c secs

/-- Embeds line 507 of `on_end`:
`final_cost = 0 if eff_cost == 0 else math.ceil(eff_cost)`. -/
def final_charge_of (eff : ℚ) : ℤ := if eff = 0 then 0 else ⌈eff⌉

/-- The final charge computed by `on_end` for an elapsed duration. -/
def final_charge (c : Settings) (secs : ℚ) : ℤ :=
  final_charge_of (effective_cost c secs)

/-- C2: for every duration and billing policy, `effective_cost` is 0 when
`secs ≤ minimum_secs` (the boundary is inclusive of the free tier) and
equals `raw_cost secs = rate_per_hour/3600 * secs` otherwise; with
`minimum_minutes = 10` and `rate_per_hour = 120`, 600 elapsed seconds cost
exactly 0. -/
theorem effective_cost_spec_C2 (c : Settings) (secs : ℚ) :
    (secs ≤ (minimum_secs c : ℚ) → effective_cost c secs = 0)
    ∧ (¬ secs ≤ (minimum_secs c : ℚ) →
        effective_cost c secs = raw_cost c secs
        ∧ raw_cost c secs = c.rate_per_hour / 3600 * secs)
    ∧ effective_cost ⟨120, 10⟩ 600 = 0 := by
  refine ⟨fun h => ?_, fun h => ⟨?_, rfl⟩, ?_⟩
  · simp [effective_cost, h]
  · simp [effective_cost, h]
  · norm_num [effective_cost, minimum_secs]

/-- Witness for C2 at the boundary input of the claim. -/
theorem effective_cost_spec_C2_witness :
    (600 : ℚ) ≤ ((minimum_secs ⟨120, 10⟩ : ℤ) : ℚ)
    ∧ effective_cost ⟨120, 10⟩ 600 = 0 :=
  ⟨by norm_num [minimum_secs],
   (effective_cost_spec_C2 ⟨120, 10⟩ 600).1 (by norm_num [minimum_secs])⟩

/-- C3: a positive effective cost is billed as its ceiling, a zero
effective cost as 0, so the final charge is never below the effective
cost; concretely, 601 seconds at rate 120 with a 10-minute minimum are
billed 21. -/
theorem final_charge_spec_C3 (eff : ℚ) :
    (0 < eff → final_charge_of eff = ⌈eff⌉)
    ∧ (eff = 0 → final_charge_of eff = 0)
    ∧ eff ≤ (final_charge_of eff : ℚ)
    ∧ final_charge ⟨120, 10⟩ 601 = 21 := by
  refine ⟨fun h => ?_, fun h => ?_, ?_, ?_⟩
  · simp [final_charge_of, ne_of_gt h]
  · simp [final_charge_of, h]
  · by_cases h : eff = 0
    · simp [final_charge_of, h]
    · simpa [final_charge_of, h] using Int.le_ceil eff
  · have heff : effective_cost ⟨120, 10⟩ 601 = 601 / 30 := by
      norm_num [effective_cost, raw_cost, minimum_secs]
    have hceil : (⌈(601 / 30 : ℚ)⌉ : ℤ) = 21 := by
      rw [Int.ceil_eq_iff]
      norm_num
    simp [final_charge, heff, final_charge_of, hceil]

/-- Witness for C3 at a positive effective cost. -/
theorem final_charge_spec_C3_witness :
    (0 : ℚ) < 601 / 30 ∧ final_charge_of (601 / 30) = ⌈(601 / 30 : ℚ)⌉ :=
  ⟨by norm_num, (final_charge_spec_C3 (601 / 30)).1 (by norm_num)⟩

/-- C4 counterexample: with a negative rate passed through from settings
(rate -120, minimum 0) a one-hour call is billed -120, so the final
charge is not always non-negative. -/
theorem final_charge_negative_C4 :
    final_charge ⟨-120, 0⟩ 3600 = -120 ∧ ¬ 0 ≤ final_charge ⟨-120, 0⟩ 3600 := by
  have heff : effective_cost ⟨-120, 0⟩ 3600 = -120 := by
    norm_num [effective_cost, raw_cost, minimum_secs]
  have hceil : (⌈(-120 : ℚ)⌉ : ℤ) = -120 := by
    rw [show ((-120 : ℚ)) = ((-120 : ℤ) : ℚ) by norm_num, Int.ceil_intCast]
  constructor
  · simp [final_charge, heff, final_charge_of, hceil]
  · simp [final_charge, heff, final_charge_of, hceil]

/-- C4 amended: the final charge is always an integer by construction, and
it is non-negative whenever the configured rate and the elapsed duration
are non-negative; a negative rate accepted from settings can produce a
negative charge. -/
theorem final_charge_nonneg_C4 (c : Settings) (secs : ℚ)
    (hr : 0 ≤ c.rate_per_hour) (hs : 0 ≤ secs) :
    0 ≤ final_charge c secs := by
  have heff : 0 ≤ effective_cost c secs := by
    unfold effective_cost
    split
    · exact le_refl 0
    · exact mul_nonneg (by positivity) hs
  unfold final_charge final_charge_of
  split
  · exact le_refl 0
  · exact Int.ceil_nonneg heff

/-- Witness for the amended C4. -/
theorem final_charge_nonneg_C4_witness :
    (0 : ℚ) ≤ 120 ∧ (0 : ℚ) ≤ 3600 ∧ 0 ≤ final_charge ⟨120, 10⟩ 3600 :=
  ⟨by norm_num, by norm_num,
   final_charge_nonneg_C4 ⟨120, 10⟩ 3600 (by norm_num) (by norm_num)⟩

/-- Timer state of `CallTimerApp` (`__init__`, lines 116-121): monotonic
timestamps (`time.perf_counter` floats) are modelled as rationals. -/
structure TimerState where
  running : Bool
  paused : Bool
  start_time : Option ℚ
  paused_accum : ℚ
  pause_started : Option ℚ
deriving DecidableEq

/-- Initial timer state set in `__init__` (lines 116-121); `on_end`
resets every field back to exactly these values (lines 524-529). -/
def initState : TimerState :=
  { running := false, paused := false, start_time := none
    paused_accum := 0, pause_started := none }

/-- Embeds `_elapsed_seconds` (lines 285-291), with the two `_now()`
calls taken at the same sample time `now`. -/
def elapsed_seconds (s : TimerState) (now : ℚ) : ℚ :=
  match s.running, s.start_time with
  | true, some st =>
      let base := now - st - s.paused_accum
      let base2 :=
        match s.paused, s.pause_started with
        | true, some ps => base - (now - ps)
        | _, _ => base
      max 0 base2
  | _, _ => 0

/-- Embeds `on_new` (lines 356-365): when a call is running, the user is
asked for confirmation (`confirm`); a declined confirmation leaves the
state unchanged, otherwise all timing state is reset and the call starts
at monotonic time `t`. -/
def on_new (confirm : Bool) (t : ℚ) (s : TimerState) : TimerState :=
  if s.running = true ∧ confirm = false then s
  else
    { running := true, paused := false, start_time := some t
      paused_accum := 0, pause_started := none }

/-- Embeds the `pause()`/`resume()` toggle `on_pause` (lines 369-381) at
monotonic time `t`. -/
def on_pause (t : ℚ) (s : TimerState) : TimerState :=
  if s.running = false then s
  else if s.paused = false then
    { s with paused := true, pause_started := some t }
  else
    { s with paused := false
             paused_accum := s.paused_accum +
               (match s.pause_started with
                | some ps => t - ps
                | none => 0)
             pause_started := none }

/-- Embeds lines 500-502 of `on_end`: an open pause interval is folded
into `paused_accum` before the final elapsed time is read (the `paused`
flag itself is cleared only later, in the reset). -/
def fold_open_pause (t : ℚ) (s : TimerState) : TimerState :=
  match s.paused, s.pause_started with
  | true, some ps =>
      { s with paused_accum := s.paused_accum + (t - ps), pause_started := none }
  | _, _ => s

/-- Embeds `on_end` (lines 495-532) at monotonic time `t`: on an idle
timer only a message is shown; otherwise the open pause is folded, the
final elapsed seconds are computed, and (after the summary popup) the
state is reset to `initState`. Returns the new state and the final
elapsed seconds of the ended call, when there was one. -/
def on_end (t : ℚ) (s : TimerState) : TimerState × Option ℚ :=
  if s.running = false then (s, none)
  else
    let s1 := fold_open_pause t s
    (initState, some (elapsed_seconds s1 t))

/-- User-driven operations on the timer, each tagged with the monotonic
time at which it happens. -/
inductive Op where
  | newCall (confirm : Bool) (t : ℚ)
  | pauseToggle (t : ℚ)
  | endCall (t : ℚ)

/-- State transition of one operation. -/
def applyOp (s : TimerState) : Op → TimerState
  | .newCall c t => on_new c t s
  | .pauseToggle t => on_pause t s
  | .endCall t => (on_end t s).1

/-- State after a sequence of operations from the initial state. -/
def run (ops : List Op) : TimerState := ops.foldl applyOp initState

/-- Structural invariant of reachable timer states: an idle timer is
exactly the initial state, and a running timer has a start timestamp and
a pause timestamp exactly when paused. -/
def Inv (s : TimerState) : Prop :=
  (s.running = false → s = initState)
  ∧ (s.running = true →
      (∃ st, s.start_time = some st)
      ∧ (s.paused = true → ∃ p, s.pause_started = some p)
      ∧ (s.paused = false → s.pause_started = none))

theorem inv_initState : Inv initState := by
  constructor
  · intro _; rfl
  · intro h; simp [initState] at h

theorem inv_applyOp (s : TimerState) (op : Op) (h : Inv s) : Inv (applyOp s op) := by
  obtain ⟨hidle, hrun⟩ := h
  cases op with
  | newCall c t =>
      simp only [applyOp, on_new]
      split
      · exact ⟨hidle, hrun⟩
      · refine ⟨by simp, fun _ => ⟨⟨t, rfl⟩, by simp, fun _ => rfl⟩⟩
  | pauseToggle t =>
      simp only [applyOp, on_pause]
      split
      · exact ⟨hidle, hrun⟩
      · next hr =>
          have hr' : s.running = true := by
            cases hx : s.running
            · exact absurd hx hr
            · rfl
          obtain ⟨hst, _, _⟩ := hrun hr'
          split
          · refine ⟨by simp [hr'], fun _ => ⟨hst, fun _ => ⟨t, rfl⟩, by simp⟩⟩
          · refine ⟨by simp [hr'], fun _ => ⟨hst, by simp, fun _ => rfl⟩⟩
  | endCall t =>
      simp only [applyOp, on_end]
      split
      · exact ⟨hidle, hrun⟩
      · exact inv_initState

theorem inv_run (ops : List Op) : Inv (run ops) := by
  suffices h : ∀ s, Inv s → Inv (List.foldl applyOp s ops) from h initState inv_initState
  induction ops with
  | nil => intro s hs; exact hs
  | cons op rest ih => intro s hs; exact ih (applyOp s op) (inv_applyOp s op hs)

/-- C10: in every reachable state with no active call, the paused flag is
clear, no pause accumulation or open pause remains, there is no start
timestamp, and the elapsed-seconds query returns 0 at every sample
time. -/
theorem idle_state_C10 (ops : List Op) (now : ℚ) (h : (run ops).running = false) :
    (run ops).paused = false
    ∧ (run ops).paused_accum = 0
    ∧ (run ops).pause_started = none
    ∧ (run ops).start_time = none
    ∧ elapsed_seconds (run ops) now = 0 := by
  have hinit : run ops = initState := (inv_run ops).1 h
  rw [hinit]
  refine ⟨rfl, rfl, rfl, rfl, rfl⟩

/-- Witness for C10: the state reached by starting a call at time 0 and
ending it at time 7 is idle and reports elapsed 0. -/
theorem idle_state_C10_witness :
    (run [Op.newCall true 0, Op.endCall 7]).running = false
    ∧ elapsed_seconds (run [Op.newCall true 0, Op.endCall 7]) 9 = 0 :=
  ⟨by decide,
   (idle_state_C10 [Op.newCall true 0, Op.endCall 7] 9 (by decide)).2.2.2.2⟩

/-- C1: in every reachable state with an active call (running or paused)
and at every sample time, the elapsed-seconds query returns
`now - monotonic_start - paused_accumulated`, further minus the open
pause interval `now - pause_started_at` when currently paused, clamped
below at 0. -/
theorem elapsed_formula_C1 (ops : List Op) (now : ℚ) (h : (run ops).running = true) :
    ∃ st, (run ops).start_time = some st
    ∧ ((run ops).paused = false →
        elapsed_seconds (run ops) now = max 0 (now - st - (run ops).paused_accum))
    ∧ ((run ops).paused = true →
        ∃ p, (run ops).pause_started = some p
        ∧ elapsed_seconds (run ops) now
          = max 0 (now - st - (run ops).paused_accum - (now - p))) := by
  obtain ⟨⟨st, hst⟩, hps, hnp⟩ := (inv_run ops).2 h
  refine ⟨st, hst, fun hp => ?_, fun hp => ?_⟩
  · have hnone := hnp hp
    simp [elapsed_seconds, h, hst, hp, hnone]
  · obtain ⟨p, hpse⟩ := hps hp
    refine ⟨p, hpse, ?_⟩
    simp [elapsed_seconds, h, hst, hp, hpse]

/-- Witness for C1: after starting at time 0 and pausing at time 4, the
query at time 9 returns the value given by the formula. -/
theorem elapsed_formula_C1_witness :
    (run [Op.newCall true 0, Op.pauseToggle 4]).running = true
    ∧ ∃ st, (run [Op.newCall true 0, Op.pauseToggle 4]).start_time = some st :=
  ⟨by decide,
   (elapsed_formula_C1 [Op.newCall true 0, Op.pauseToggle 4] 9 (by decide)).imp
     (fun _ hst => hst.1)⟩

/-- Apply one full pause/resume cycle per list entry: `(p, r)` pauses at
monotonic time `p` and resumes at time `r` via the same toggle. -/
def run_pauses (s : TimerState) : List (ℚ × ℚ) → TimerState
  | [] => s
  | (p, r) :: rest => run_pauses (on_pause r (on_pause p s)) rest

/-- Total duration of a list of pause intervals. -/
def pause_total : List (ℚ × ℚ) → ℚ
  | [] => 0
  | (p, r) :: rest => (r - p) + pause_total rest

/-- Chronological ordering of a call: it starts at `t0`, the pause
intervals follow in order, and it ends at `te`. Monotonic clock readings
taken in this order always satisfy it. -/
def chron (t0 : ℚ) : List (ℚ × ℚ) → ℚ → Prop
  | [], te => t0 ≤ te
  | (p, r) :: rest, te => t0 ≤ p ∧ p ≤ r ∧ chron r rest te

instance chron_decidable (t0 : ℚ) (ps : List (ℚ × ℚ)) (te : ℚ) :
    Decidable (chron t0 ps te) := by
  induction ps generalizing t0 with
  | nil => exact inferInstanceAs (Decidable (t0 ≤ te))
  | cons pr rest ih =>
      obtain ⟨p, r⟩ := pr
      exact @instDecidableAnd _ _ _ (@instDecidableAnd _ _ _ (ih r))

theorem chron_total_le (t0 te : ℚ) (ps : List (ℚ × ℚ)) (h : chron t0 ps te) :
    pause_total ps ≤ te - t0 := by
  induction ps generalizing t0 with
  | nil => simp only [chron] at h; simp only [pause_total]; linarith
  | cons pr rest ih =>
      obtain ⟨p, r⟩ := pr
      obtain ⟨h1, h2, h3⟩ := h
      have := ih r h3
      simp only [pause_total]
      linarith

theorem run_pauses_accum (ps : List (ℚ × ℚ)) (st a : ℚ) :
    run_pauses
      { running := true, paused := false, start_time := some st
        paused_accum := a, pause_started := none } ps
    = { running := true, paused := false, start_time := some st
        paused_accum := a + pause_total ps, pause_started := none } := by
  induction ps generalizing a with
  | nil => simp [run_pauses, pause_total]
  | cons pr rest ih =>
      obtain ⟨p, r⟩ := pr
      have hstep :
          on_pause r (on_pause p
            { running := true, paused := false, start_time := some st
              paused_accum := a, pause_started := none })
          = { running := true, paused := false, start_time := some st
              paused_accum := a + (r - p), pause_started := none } := by
        simp [on_pause]
      rw [run_pauses, hstep, ih (a + (r - p))]
      simp only [pause_total]
      ring_nf

/-- C5: for every call started at `t0`, any number of pause/resume cycles
(each resume folding `now - pause_started_at` into `paused_accumulated`
and clearing `pause_started_at`), and an end at `te`, the final
elapsed-seconds value reported by `end` is the monotonic span `te - t0`
minus the total duration of all pause intervals. -/
theorem pause_neutrality_C5 (t0 te : ℚ) (ps : List (ℚ × ℚ))
    (h : chron t0 ps te) :
    (on_end te (run_pauses (on_new true t0 initState) ps)).2
      = some ((te - t0) - pause_total ps) := by
  have hstart : on_new true t0 initState
      = { running := true, paused := false, start_time := some t0
          paused_accum := 0, pause_started := none } := by
    simp [on_new, initState]
  rw [hstart, run_pauses_accum]
  have hle := chron_total_le t0 te ps h
  simp only [on_end, fold_open_pause, elapsed_seconds]
  norm_num
  exact hle

/-- Witness for C5: a call from time 0 to time 10 with one pause from
time 2 to time 5 reports 7 elapsed seconds. -/
theorem pause_neutrality_C5_witness :
    chron 0 [(2, 5)] 10
    ∧ (on_end 10 (run_pauses (on_new true 0 initState) [(2, 5)])).2
        = some ((10 - 0) - pause_total [(2, 5)]) :=
  ⟨by decide, pause_neutrality_C5 0 10 [(2, 5)] (by decide)⟩

/-- Fixed CSV column names (line 95). -/
def CSV_HEADERS : List String :=
  ["CUSTOMER_NAME", "CUSTOMER_NUMBER", "START_TIME", "END_TIME",
   "TOTAL_$", "RATE_$", "TECH_NOTES"]

/-- Content of one partition file: `none` when the file does not exist,
otherwise its list of CSV rows (an empty list is an empty file). -/
abbrev FileContent := Option (List (List String))

/-- Embeds `_ensure_log_header_month` (lines 328-336) on the success
path: when the file is absent or empty, it is (re)created holding only
the header row; otherwise it is left untouched. -/
def ensure_log_header_month (f : FileContent) : FileContent :=
  if f = none ∨ f = some [] then some [CSV_HEADERS] else f

/-- Embeds `_append_log_row_month` (lines 338-346) on the success path:
the header is ensured, then exactly one data row is appended (mode
`"a"` creates the file if needed and never truncates). -/
def append_log_row_month (row : List String) (f : FileContent) : FileContent :=
  let f1 := ensure_log_header_month f
  some (f1.getD [] ++ [row])

/-- Appending a sequence of records one by one. -/
def append_all (rows : List (List String)) (f : FileContent) : FileContent :=
  rows.foldl (fun acc r => append_log_row_month r acc) f

theorem append_all_nonempty (rows : List (List String))
    (c : List (List String)) (hc : c ≠ []) :
    append_all rows (some c) = some (c ++ rows) := by
  induction rows generalizing c with
  | nil => simp [append_all]
  | cons r rest ih =>
      have hstep : append_log_row_month r (some c) = some (c ++ [r]) := by
        simp [append_log_row_month, ensure_log_header_month, hc]
      show append_all rest (append_log_row_month r (some c)) = _
      rw [hstep, ih (c ++ [r]) (by simp)]
      simp

/-- C6: appending `N ≥ 1` records to a fresh partition (file nonexistent
or empty) yields exactly one header row followed by the `N` data rows in
order, while a partition that already has content receives no second
header and keeps all previously written rows, the new rows being
appended after them. -/
theorem header_guarantee_C6 (rows : List (List String))
    (c : List (List String)) (hrows : rows ≠ []) (hc : c ≠ []) :
    append_all rows none = some (CSV_HEADERS :: rows)
    ∧ append_all rows (some []) = some (CSV_HEADERS :: rows)
    ∧ append_all rows (some c) = some (c ++ rows) := by
  obtain ⟨r, rest, rfl⟩ := List.exists_cons_of_ne_nil hrows
  refine ⟨?_, ?_, append_all_nonempty _ c hc⟩
  · show append_all rest (append_log_row_month r none) = _
    have hstep : append_log_row_month r none = some [CSV_HEADERS, r] := by
      simp [append_log_row_month, ensure_log_header_month]
    rw [hstep, append_all_nonempty rest [CSV_HEADERS, r] (by simp)]
    simp
  · show append_all rest (append_log_row_month r (some [])) = _
    have hstep : append_log_row_month r (some []) = some [CSV_HEADERS, r] := by
      simp [append_log_row_month, ensure_log_header_month]
    rw [hstep, append_all_nonempty rest [CSV_HEADERS, r] (by simp)]
    simp

/-- Witness for C6 with one record and a partition already holding the
header row. -/
theorem header_guarantee_C6_witness :
    append_all [["a", "b", "c", "d", "e", "f", "g"]] none
      = some (CSV_HEADERS :: [["a", "b", "c", "d", "e", "f", "g"]])
    ∧ append_all [["a", "b", "c", "d", "e", "f", "g"]] (some [CSV_HEADERS])
      = some ([CSV_HEADERS] ++ [["a", "b", "c", "d", "e", "f", "g"]]) :=
  ⟨(header_guarantee_C6 [["a", "b", "c", "d", "e", "f", "g"]] [CSV_HEADERS]
      (by decide) (by decide)).1,
   (header_guarantee_C6 [["a", "b", "c", "d", "e", "f", "g"]] [CSV_HEADERS]
      (by decide) (by decide)).2.2⟩

/-- Zero-padded two-digit decimal rendering, as produced by `strftime`
field `%m` (and the other two-digit fields) for values below 100. -/
def two_digit (n : ℕ) : String :=
  String.mk [Nat.digitChar (n / 10 % 10), Nat.digitChar (n % 10)]

/-- Zero-padded four-digit decimal rendering, as produced by `strftime`
field `%Y` for the `datetime` year range 1..9999. -/
def four_digit (n : ℕ) : String :=
  String.mk [Nat.digitChar (n / 1000 % 10), Nat.digitChar (n / 100 % 10),
             Nat.digitChar (n / 10 % 10), Nat.digitChar (n % 10)]

/-- Wall-clock timestamp as used for logging (a `datetime.datetime`
restricted to the fields the program formats). -/
structure DateTimeRec where
  year : ℕ
  month : ℕ
  day : ℕ
  hour : ℕ
  minute : ℕ
  second : ℕ
deriving DecidableEq

/-- Embeds `month_log_path` (lines 61-68) as the list of path components
joined by `os.path.join`: `<root>/<YYYY>/<MM>/call_log.csv`, the
directory part being created on demand. -/
def month_log_path (root : String) (when : DateTimeRec) : List String :=
  [root, four_digit when.year, two_digit when.month, "call_log.csv"]

theorem digitChar_inj (a b : ℕ) (ha : a < 10) (hb : b < 10) :
    Nat.digitChar a = Nat.digitChar b → a = b := by
  interval_cases a <;> interval_cases b <;> decide

theorem two_digit_inj (a b : ℕ) (ha : a < 100) (hb : b < 100)
    (h : two_digit a = two_digit b) : a = b := by
  have hdata : [Nat.digitChar (a / 10 % 10), Nat.digitChar (a % 10)]
      = [Nat.digitChar (b / 10 % 10), Nat.digitChar (b % 10)] :=
    congrArg String.data h
  simp only [List.cons.injEq, and_true] at hdata
  obtain ⟨h1, h2⟩ := hdata
  have e1 := digitChar_inj _ _ (Nat.mod_lt _ (by norm_num)) (Nat.mod_lt _ (by norm_num)) h1
  have e2 := digitChar_inj _ _ (Nat.mod_lt _ (by norm_num)) (Nat.mod_lt _ (by norm_num)) h2
  omega

theorem four_digit_inj (a b : ℕ) (ha : a < 10000) (hb : b < 10000)
    (h : four_digit a = four_digit b) : a = b := by
  have hdata : [Nat.digitChar (a / 1000 % 10), Nat.digitChar (a / 100 % 10),
      Nat.digitChar (a / 10 % 10), Nat.digitChar (a % 10)]
      = [Nat.digitChar (b / 1000 % 10), Nat.digitChar (b / 100 % 10),
      Nat.digitChar (b / 10 % 10), Nat.digitChar (b % 10)] :=
    congrArg String.data h
  simp only [List.cons.injEq, and_true] at hdata
  obtain ⟨h1, h2, h3, h4⟩ := hdata
  have e1 := digitChar_inj _ _ (Nat.mod_lt _ (by norm_num)) (Nat.mod_lt _ (by norm_num)) h1
  have e2 := digitChar_inj _ _ (Nat.mod_lt _ (by norm_num)) (Nat.mod_lt _ (by norm_num)) h2
  have e3 := digitChar_inj _ _ (Nat.mod_lt _ (by norm_num)) (Nat.mod_lt _ (by norm_num)) h3
  have e4 := digitChar_inj _ _ (Nat.mod_lt _ (by norm_num)) (Nat.mod_lt _ (by norm_num)) h4
  omega

/-- A ledger as a map from partition paths to file contents; `do_save`
appends a record to the partition derived from its end timestamp
(line 475 passes `end_dt` to `_append_log_row_month`, line 339 derives
the path from it). -/
def save_to_ledger (root : String) (L : List String → FileContent)
    (row : List String) (end_dt : DateTimeRec) : List String → FileContent :=
  fun p =>
    if p = month_log_path root end_dt then append_log_row_month row (L p)
    else L p

/-- C7: the partition path is a deterministic function of the end
timestamp of the record with shape `<root>/<4-digit year>/<2-digit month>/
call_log.csv`; saving a record appends it to exactly that partition and
touches no other file, and two end timestamps in different calendar
months (within the valid `datetime` ranges) yield distinct partition
files. -/
theorem month_partition_C7 (root : String) (d1 d2 : DateTimeRec)
    (h1y : d1.year < 10000) (h2y : d2.year < 10000)
    (h1m : d1.month < 100) (h2m : d2.month < 100)
    (hne : ¬(d1.year = d2.year ∧ d1.month = d2.month)) :
    month_log_path root d1
      = [root, four_digit d1.year, two_digit d1.month, "call_log.csv"]
    ∧ (∀ (L : List String → FileContent) (row : List String),
        save_to_ledger root L row d1 (month_log_path root d1)
          = append_log_row_month row (L (month_log_path root d1))
        ∧ ∀ p, p ≠ month_log_path root d1 → save_to_ledger root L row d1 p = L p)
    ∧ month_log_path root d1 ≠ month_log_path root d2 := by
  refine ⟨rfl, fun L row => ⟨by simp [save_to_ledger], fun p hp => by
    simp [save_to_ledger, hp]⟩, fun h => hne ?_⟩
  simp only [month_log_path, List.cons.injEq, and_true, true_and] at h
  exact ⟨four_digit_inj _ _ h1y h2y h.1, two_digit_inj _ _ h1m h2m h.2⟩

/-- Witness for C7: December 2024 and January 2025 land in distinct
partition files. -/
theorem month_partition_C7_witness :
    month_log_path "root" ⟨2024, 12, 31, 23, 59, 59⟩
      ≠ month_log_path "root" ⟨2025, 1, 1, 0, 0, 1⟩ :=
  (month_partition_C7 "root" ⟨2024, 12, 31, 23, 59, 59⟩ ⟨2025, 1, 1, 0, 0, 1⟩
    (by decide) (by decide) (by decide) (by decide) (by decide)).2.2

/-- Embeds `strftime("%Y-%m-%d %H:%M:%S")` as used for `START_TIME` and
`END_TIME` (lines 469-470). -/
def fmt_datetime (t : DateTimeRec) : String :=
  four_digit t.year ++ "-" ++ two_digit t.month ++ "-" ++ two_digit t.day ++ " "
    ++ two_digit t.hour ++ ":" ++ two_digit t.minute ++ ":" ++ two_digit t.second

/-- The Python format `.2f` applied to an int value: the decimal integer
followed by `.00`. -/
def int_two_dec (n : ℤ) : String := toString n ++ ".00"

/-- Rounding half to even, the rounding Python applies when formatting a
float with `.2f` (idealised here over ℚ). -/
def round_half_even (q : ℚ) : ℤ :=
  if Int.fract q < 1 / 2 then ⌊q⌋
  else if 1 / 2 < Int.fract q then ⌊q⌋ + 1
  else if ⌊q⌋ % 2 = 0 then ⌊q⌋ else ⌊q⌋ + 1

/-- The Python format `.2f` applied to a float value (idealised over ℚ):
the value rounded to whole cents, printed with two decimals. -/
def rat_two_dec (q : ℚ) : String :=
  let cents := round_half_even (q * 100)
  (if cents < 0 then "-" else "")
    ++ toString (cents.natAbs / 100) ++ "." ++ two_digit (cents.natAbs % 100)

/-- Embeds the row built by `do_save` (lines 466-474), in the fixed
`CSV_HEADERS` order; `eff` and `final` are the effective cost and final
charge computed by `on_end` (lines 504-507) and `rate` the applied
rate. -/
def do_save_row (name num notes : String) (start_dt end_dt : DateTimeRec)
    (rate eff : ℚ) (final : ℤ) : List String :=
  [name.trim, num.trim, fmt_datetime start_dt, fmt_datetime end_dt,
   int_two_dec (if eff = 0 then 0 else final), rat_two_dec rate, notes.trim]

/-- C8: in every saved data row, `TOTAL_$` is `"0.00"` when the effective
cost is 0 (the call fell under the free minimum) and the integer final
charge formatted with two decimals otherwise, `RATE_$` is the applied
rate formatted with two decimals, and `START_TIME`/`END_TIME` are
formatted as `YYYY-MM-DD HH:MM:SS`. -/
theorem ledger_row_C8 (name num notes : String) (s e : DateTimeRec)
    (rate eff : ℚ) (final : ℤ) :
    (eff = 0 →
      (do_save_row name num notes s e rate eff final).get? 4 = some "0.00")
    ∧ (eff ≠ 0 →
      (do_save_row name num notes s e rate eff final).get? 4
        = some (toString final ++ ".00"))
    ∧ (do_save_row name num notes s e rate eff final).get? 5
        = some (rat_two_dec rate)
    ∧ (do_save_row name num notes s e rate eff final).get? 2
        = some (fmt_datetime s)
    ∧ (do_save_row name num notes s e rate eff final).get? 3
        = some (fmt_datetime e)
    ∧ fmt_datetime s
        = four_digit s.year ++ "-" ++ two_digit s.month ++ "-" ++ two_digit s.day
          ++ " " ++ two_digit s.hour ++ ":" ++ two_digit s.minute ++ ":"
          ++ two_digit s.second := by
  refine ⟨fun h => ?_, fun h => ?_, rfl, rfl, rfl, rfl⟩
  · simp [do_save_row, int_two_dec, h]
    rfl
  · simp [do_save_row, int_two_dec, h]

/-- Witness for C8 with a waived call (effective cost 0). -/
theorem ledger_row_C8_witness :
    (do_save_row "n" "1" "t" ⟨2025, 1, 2, 3, 4, 5⟩ ⟨2025, 1, 2, 3, 14, 5⟩
        120 0 0).get? 4 = some "0.00" :=
  (ledger_row_C8 "n" "1" "t" ⟨2025, 1, 2, 3, 4, 5⟩ ⟨2025, 1, 2, 3, 14, 5⟩
    120 0 0).1 rfl

/-- Embeds `_append_log_row_month` (lines 338-346) when the row write may
fail: the raised exception is caught, an error dialog is shown, and the
file keeps its previous rows (plus the header `_ensure_log_header_month`
may have created). Returns the resulting file and the error notices
shown. -/
def append_log_row_month_f (writeOk : Bool) (row : List String)
    (f : FileContent) : FileContent × List String :=
  let f1 := ensure_log_header_month f
  if writeOk then (some (f1.getD [] ++ [row]), [])
  else (f1, ["CSV Error"])

/-- Outcome of the `do_save` handler: the partition file, the error
notices shown, and whether the summary window was closed. -/
structure SaveResult where
  file : FileContent
  notices : List String
  window_closed : Bool
deriving DecidableEq

/-- Embeds `do_save` (lines 465-476): the record row is appended via
`_append_log_row_month`, then `close()` runs unconditionally, destroying
the summary window that holds the record; the program keeps running in
both cases. -/
def do_save_f (writeOk : Bool) (row : List String) (f : FileContent) :
    SaveResult :=
  let fr := append_log_row_month_f writeOk row f
  { file := fr.1, notices := fr.2, window_closed := true }

/-- C9 counterexample: when the row write fails, the failure is indeed
surfaced as a notice, but the summary window is closed all the same and
the row is absent from the ledger — the candidate record is not retained
for the user to copy or retry. -/
theorem save_failure_C9_counterexample :
    (do_save_f false ["n", "1", "s", "e", "21.00", "120.00", "t"]
        (some [CSV_HEADERS])).notices = ["CSV Error"]
    ∧ (do_save_f false ["n", "1", "s", "e", "21.00", "120.00", "t"]
        (some [CSV_HEADERS])).window_closed = true
    ∧ (do_save_f false ["n", "1", "s", "e", "21.00", "120.00", "t"]
        (some [CSV_HEADERS])).file = some [CSV_HEADERS] := by
  refine ⟨?_, rfl, ?_⟩ <;> decide

/-- C9 amended: a failed ledger write is surfaced as a non-fatal notice
at the moment of saving and the program continues (the handler returns
normally), previously written rows are untouched, but the summary window
closes regardless of success, so the candidate record is not kept for
retry. -/
theorem save_failure_C9 (writeOk : Bool) (row : List String) (f : FileContent) :
    (writeOk = false →
      (do_save_f writeOk row f).notices ≠ []
      ∧ (do_save_f writeOk row f).file = ensure_log_header_month f)
    ∧ (do_save_f writeOk row f).window_closed = true := by
  refine ⟨fun h => ⟨?_, ?_⟩, rfl⟩ <;>
    simp [do_save_f, append_log_row_month_f, h]

/-- Witness for the amended C9 at a failing write on a fresh partition. -/
theorem save_failure_C9_witness :
    (do_save_f false ["r", "", "", "", "", "", ""] none).notices ≠ []
    ∧ (do_save_f false ["r", "", "", "", "", "", ""] none).file
        = ensure_log_header_month none :=
  (save_failure_C9 false ["r", "", "", "", "", "", ""] none).1 rfl

end CallTimer
